import Mathlib

/-!
Shallow embedding of the peaks braille-chart rendering engine
(src/internal/chart/{braille,data,types}.go and the chart variant in
src/unnamed/part_011, part_012, part_014) together with proofs about it.

Go `uint64` values are modelled as `ℕ`, Go `int` as `ℤ` where negative
values are reachable, and Go `float64` arithmetic as `ℝ` (with Lean's
convention `x / 0 = 0`; divisions whose denominator can be zero are
tracked separately by an explicit predicate).
-/

set_option maxRecDepth 100000

namespace Peaks

/-- Scaling modes, from `ScalingMode` in types.go. -/
inductive ScalingMode where
  | ScalingLinear
  | ScalingLogarithmic
  | ScalingSquareRoot
deriving DecidableEq, Repr

/-- Time scales, from `TimeScale` in types.go. -/
inductive TimeScale where
  | TimeScale1Min
  | TimeScale3Min
  | TimeScale5Min
  | TimeScale10Min
  | TimeScale15Min
  | TimeScale30Min
  | TimeScale60Min
deriving DecidableEq, Repr

/-- `minLogValue = 1024.0`, the 1 KiB floor used by logarithmic scaling. -/
noncomputable def minLogValue : ℝ := 1024

/-- `maxScaleLimit = 100 * 1024 * 1024`, the 100 MiB/s scale cap. -/
def maxScaleLimit : ℕ := 100 * 1024 * 1024

/-- `scaleValue` from braille.go lines 261-290 (identical in part_012):
maps a raw value and the current maximum to a normalized height fraction.
Go's `math.Log10` is `Real.logb 10`; Go's float division is real division
(Lean reads `x / 0` as `0` where Go would produce `Inf`/`NaN`). -/
noncomputable def scaleValue (mode : ScalingMode) (value maxValue : ℕ) : ℝ :=
  if value = 0 then 0
  else
    match mode with
    | .ScalingLinear => (value : ℝ) / (maxValue : ℝ)
    | .ScalingLogarithmic =>
        let val := max (value : ℝ) minLogValue
        let maxVal := max (maxValue : ℝ) minLogValue
        (Real.logb 10 val - Real.logb 10 minLogValue) /
          (Real.logb 10 maxVal - Real.logb 10 minLogValue)
    | .ScalingSquareRoot => Real.sqrt value / Real.sqrt maxValue

/-- Whether the division performed by `scaleValue` on this input has a zero
denominator (Go would produce `Inf` or `NaN` there; Lean's `/` hides this by
returning 0, so the condition is recorded explicitly). -/
noncomputable def scaleDivZero (mode : ScalingMode) (value maxValue : ℕ) : Prop :=
  value ≠ 0 ∧
    match mode with
    | .ScalingLinear => (maxValue : ℝ) = 0
    | .ScalingLogarithmic =>
        Real.logb 10 (max (maxValue : ℝ) minLogValue) - Real.logb 10 minLogValue = 0
    | .ScalingSquareRoot => Real.sqrt maxValue = 0

/-- Maximum of a list of naturals computed the way the Go code folds it
(`for _, v := range l { if v > m { m = v } }` starting from 0). -/
def listMax (l : List ℕ) : ℕ := l.foldl max 0

/-- The chart state, from `BrailleChart` in braille.go (the string
builders, which carry no observable state between renders, are omitted). -/
structure BrailleChart where
  width : ℕ
  height : ℕ
  maxPoints : ℤ
  uploadData : List ℕ
  downloadData : List ℕ
  maxValue : ℕ
  currentMax : ℕ
  overlayMode : Bool
  scalingMode : ScalingMode
deriving DecidableEq, Repr

/-- `NewBrailleChart` from braille.go lines 136-153. -/
def NewBrailleChart (maxPoints : ℤ) : BrailleChart :=
  { width := 80
    height := 20
    maxPoints := maxPoints
    uploadData := []
    downloadData := []
    maxValue := 1024
    currentMax := 0
    overlayMode := false
    scalingMode := .ScalingLogarithmic }

/-- `SetWidth` from braille.go lines 155-161 (clamps to a minimum of 20). -/
def SetWidth (bc : BrailleChart) (width : ℤ) : BrailleChart :=
  if width < 20 then { bc with width := 20 } else { bc with width := width.toNat }

/-- `SetHeight` from braille.go lines 163-169 (clamps to `MinChartHeight = 8`). -/
def SetHeight (bc : BrailleChart) (height : ℤ) : BrailleChart :=
  if height < 8 then { bc with height := 8 } else { bc with height := height.toNat }

/-- `SetOverlayMode` from braille.go lines 207-210. -/
def SetOverlayMode (bc : BrailleChart) (enabled : Bool) : BrailleChart :=
  { bc with overlayMode := enabled }

/-- `SetScalingMode` from braille.go lines 222-225. -/
def SetScalingMode (bc : BrailleChart) (mode : ScalingMode) : BrailleChart :=
  { bc with scalingMode := mode }

/-- `updateCurrentMax` from data.go lines 20-28: the two `if v > currentMax`
updates amount to taking the maximum. -/
def updateCurrentMax (bc : BrailleChart) (upload download : ℕ) : BrailleChart :=
  { bc with currentMax := max (max bc.currentMax upload) download }

/-- `recalculateMax` from data.go lines 53-66: refolds the maximum over the
upload series and then the download series. -/
def recalculateMax (bc : BrailleChart) : BrailleChart :=
  { bc with currentMax := bc.downloadData.foldl max (bc.uploadData.foldl max 0) }

/-- `trimDataIfNeeded` from data.go lines 30-51: drops the oldest upload and
download samples when either series exceeds `maxPoints`, rescanning the
maximum when the dropped value equalled `currentMax`. -/
def trimDataIfNeeded (bc : BrailleChart) : BrailleChart :=
  let s1 :=
    if (bc.uploadData.length : ℤ) > bc.maxPoints then
      let removedUpload := bc.uploadData.headI
      let t := { bc with uploadData := bc.uploadData.tail }
      if removedUpload = bc.currentMax then recalculateMax t else t
    else bc
  if (s1.downloadData.length : ℤ) > s1.maxPoints then
    let removedDownload := s1.downloadData.headI
    let t := { s1 with downloadData := s1.downloadData.tail }
    if removedDownload = s1.currentMax then recalculateMax t else t
  else s1

/-- `getVisibleDataMax` from braille.go lines 469-504 (identical to
data.go lines 91-126): maximum over the rightmost `width` samples. -/
def getVisibleDataMax (bc : BrailleChart) : ℕ :=
  let dataLen := max bc.uploadData.length bc.downloadData.length
  if dataLen = 0 then 0
  else
    let startIndex := if dataLen > bc.width then dataLen - bc.width else 0
    (bc.downloadData.drop startIndex).foldl max
      ((bc.uploadData.drop startIndex).foldl max 0)

/-- `updateMaxValue` from braille.go lines 446-467 (identical to data.go
lines 68-89): visible max, floored at 1024 and capped at `maxScaleLimit`. -/
def updateMaxValue (bc : BrailleChart) : BrailleChart :=
  let visibleMax := getVisibleDataMax bc
  let mv0 := if visibleMax > 0 then visibleMax else 1024
  let mv1 := if mv0 < 1024 then 1024 else mv0
  let mv2 := if mv1 > maxScaleLimit then maxScaleLimit else mv1
  { bc with maxValue := mv2 }

/-- `AddDataPoint` from data.go lines 4-18 (identical in braille.go). -/
def AddDataPoint (bc : BrailleChart) (upload download : ℕ) : BrailleChart :=
  let s0 := updateCurrentMax bc upload download
  let s1 := { s0 with
    uploadData := s0.uploadData ++ [upload]
    downloadData := s0.downloadData ++ [download] }
  updateMaxValue (trimDataIfNeeded s1)

/-- `Reset` from data.go lines 128-134. -/
def Reset (bc : BrailleChart) : BrailleChart :=
  { bc with uploadData := [], downloadData := [], maxValue := 1024, currentMax := 0 }

/-- `SetMaxPoints` from data.go lines 136-170 (the capacity bookkeeping on
the Go slices does not change their contents and is omitted). -/
def SetMaxPoints (bc : BrailleChart) (maxPoints : ℤ) : BrailleChart :=
  if maxPoints ≤ 0 then bc
  else
    let oldMaxPoints := bc.maxPoints
    let s1 := { bc with maxPoints := maxPoints }
    if maxPoints < oldMaxPoints then
      let s2 := { s1 with
        uploadData :=
          if (s1.uploadData.length : ℤ) > maxPoints then
            s1.uploadData.drop (s1.uploadData.length - maxPoints.toNat)
          else s1.uploadData
        downloadData :=
          if (s1.downloadData.length : ℤ) > maxPoints then
            s1.downloadData.drop (s1.downloadData.length - maxPoints.toNat)
          else s1.downloadData }
      recalculateMax s2
    else s1

/-- `GetMaxValue` from data.go lines 172-175. -/
def GetMaxValue (bc : BrailleChart) : ℕ := bc.maxValue

/-- `GetDataLength` from data.go lines 177-185. -/
def GetDataLength (bc : BrailleChart) : ℕ :=
  max bc.uploadData.length bc.downloadData.length

/-- `dotPatterns` from braille.go lines 49-54: the pair of braille dot bits
contributed by each of the 4 vertical dot rows of a cell. -/
def dotPattern (dotRow : ℕ) : ℕ :=
  if dotRow = 0 then 0x01 ||| 0x08
  else if dotRow = 1 then 0x02 ||| 0x10
  else if dotRow = 2 then 0x04 ||| 0x20
  else 0x40 ||| 0x80

/-- How a rendered cell is styled (which colour gradient, or a blank). -/
inductive CellKind where
  | space
  | uploadStyled
  | downloadStyled
  | overlapStyled
  | plain
deriving DecidableEq, Repr

/-- A rendered character cell: its braille dot mask (0 for a space) and its
styling, abstracting the glyph-plus-ANSI string the Go code emits. -/
structure Cell where
  dots : ℕ
  kind : CellKind
deriving DecidableEq, Repr

/-- In split mode, whether dot row `dotRow` of row `line` is a download dot:
braille.go lines 670-683 (`absoluteDotPos < halfHeight` and
`halfHeight - absoluteDotPos <= downloadHeight`). -/
def splitDownloadDot (line dotRow : ℕ) (downloadHeight halfHeight : ℤ) : Bool :=
  let p : ℤ := 4 * line + dotRow
  decide (p < halfHeight ∧ halfHeight - p ≤ downloadHeight)

/-- In split mode, whether dot row `dotRow` of row `line` is an upload dot:
braille.go lines 685-699 (`absoluteDotPos >= halfHeight` and
`absoluteDotPos - halfHeight < uploadHeight`). -/
def splitUploadDot (line dotRow : ℕ) (uploadHeight halfHeight : ℤ) : Bool :=
  let p : ℤ := 4 * line + dotRow
  decide (halfHeight ≤ p ∧ p - halfHeight < uploadHeight)

/-- Whether any of the 4 dot rows of row `line` carries an upload dot
(`hasUpload` in `createBrailleCharForLineSplit`). -/
def splitHasUpload (line : ℕ) (uploadHeight halfHeight : ℤ) : Bool :=
  (List.range 4).any fun r => splitUploadDot line r uploadHeight halfHeight

/-- Whether any of the 4 dot rows of row `line` carries a download dot
(`hasDownload` in `createBrailleCharForLineSplit`). -/
def splitHasDownload (line : ℕ) (downloadHeight halfHeight : ℤ) : Bool :=
  (List.range 4).any fun r => splitDownloadDot line r downloadHeight halfHeight

/-- The dot mask accumulated by `createBrailleCharForLineSplit`. -/
def splitDots (line : ℕ) (uploadHeight downloadHeight halfHeight : ℤ) : ℕ :=
  (List.range 4).foldl
    (fun acc r =>
      if splitDownloadDot line r downloadHeight halfHeight ∨
          splitUploadDot line r uploadHeight halfHeight then
        acc ||| dotPattern r
      else acc) 0

/-- `createBrailleCharForLineSplit` from braille.go lines 644-721, at the
level of dot mask and styling choice. -/
def createBrailleCharForLineSplit (line : ℕ)
    (uploadHeight downloadHeight halfHeight : ℤ) : Cell :=
  if uploadHeight = 0 ∧ downloadHeight = 0 then ⟨0, .space⟩
  else
    let dots := splitDots line uploadHeight downloadHeight halfHeight
    let hasUpload := splitHasUpload line uploadHeight halfHeight
    let hasDownload := splitHasDownload line downloadHeight halfHeight
    if dots = 0 then ⟨0, .space⟩
    else if hasUpload ∧ hasDownload then ⟨dots, .uploadStyled⟩
    else if hasUpload then ⟨dots, .uploadStyled⟩
    else if hasDownload then ⟨dots, .downloadStyled⟩
    else ⟨dots, .plain⟩

/-- In overlay mode, whether dot row `dotRow` of row `line` is filled for a
series of height `h`: braille.go lines 739-755
(`distanceFromBottom <= h` with `distanceFromBottom = fullHeight - p`). -/
def overlayDot (line dotRow : ℕ) (h fullHeight : ℤ) : Bool :=
  let p : ℤ := 4 * line + dotRow
  decide (fullHeight - p ≤ h)

/-- The dot mask one series contributes to row `line` in overlay mode. -/
def overlayDots (line : ℕ) (h fullHeight : ℤ) : ℕ :=
  (List.range 4).foldl
    (fun acc r => if overlayDot line r h fullHeight then acc ||| dotPattern r else acc) 0

/-- `createBrailleCharForOverlay` from braille.go lines 723-798, at the
level of dot mask and styling choice. -/
def createBrailleCharForOverlay (line : ℕ)
    (uploadHeight downloadHeight fullHeight : ℤ) : Cell :=
  if uploadHeight = 0 ∧ downloadHeight = 0 then ⟨0, .space⟩
  else
    let uploadDotsM := overlayDots line uploadHeight fullHeight
    let downloadDotsM := overlayDots line downloadHeight fullHeight
    let overlapDots := uploadDotsM &&& downloadDotsM
    if uploadDotsM = 0 ∧ downloadDotsM = 0 then ⟨0, .space⟩
    else
      let dots := uploadDotsM ||| downloadDotsM
      if overlapDots ≠ 0 then ⟨dots, .overlapStyled⟩
      else if uploadDotsM ≠ 0 ∧ downloadDotsM ≠ 0 then ⟨dots, .overlapStyled⟩
      else if uploadDotsM ≠ 0 then ⟨dots, .uploadStyled⟩
      else if downloadDotsM ≠ 0 then ⟨dots, .downloadStyled⟩
      else ⟨0, .space⟩

/-- The pixel height `int(scale * float64(limit))`, clamped from above at
`limit`, as computed in `renderColumn` / `renderColumnOverlay`
(braille.go lines 588-642). Go's `int(...)` truncates toward zero, which
agrees with `Int.floor` because `scaleValue` is nonnegative. -/
noncomputable def scaledHeight (mode : ScalingMode) (value maxValue limit : ℕ) : ℤ :=
  let h := ⌊scaleValue mode value maxValue * (limit : ℝ)⌋
  if h > (limit : ℤ) then (limit : ℤ) else h

/-- One cell of one column, as produced by `renderColumn` (split mode,
`halfHeight = (height/2) * brailleDots`) or `renderColumnOverlay`
(`fullHeight = height * brailleDots`). -/
noncomputable def columnCell (mode : ScalingMode) (overlay : Bool)
    (maxV height upload download y : ℕ) : Cell :=
  if overlay then
    createBrailleCharForOverlay y
      (scaledHeight mode upload maxV (height * 4))
      (scaledHeight mode download maxV (height * 4))
      ((height * 4 : ℕ) : ℤ)
  else
    let centerLine := height / 2
    createBrailleCharForLineSplit y
      (scaledHeight mode upload maxV (centerLine * 4))
      (scaledHeight mode download maxV (centerLine * 4))
      ((centerLine * 4 : ℕ) : ℤ)

/-- The `(upload, download)` pair column `x` draws, from `Render`
(braille.go lines 556-567): `dataIndex = dataLen - (chartWidth - x)`,
each series read only when the index is inside its own bounds. -/
def columnValues (width : ℕ) (up dl : List ℕ) (x : ℕ) : ℕ × ℕ :=
  let dataLen : ℤ := max up.length dl.length
  let dataIndex : ℤ := dataLen - ((width : ℤ) - (x : ℤ))
  (if 0 ≤ dataIndex ∧ dataIndex < (up.length : ℤ) then up.getD dataIndex.toNat 0 else 0,
   if 0 ≤ dataIndex ∧ dataIndex < (dl.length : ℤ) then dl.getD dataIndex.toNat 0 else 0)

/-- The cell `Render` puts at column `x`, row `y`: empty data renders as
spaces (`renderEmptyChart`); otherwise `updateMaxValue` runs first and the
cell is produced by the column renderer for the current display mode. -/
noncomputable def cellAt (bc : BrailleChart) (x y : ℕ) : Cell :=
  if bc.uploadData.length = 0 ∧ bc.downloadData.length = 0 then ⟨0, .space⟩
  else
    let s := updateMaxValue bc
    let p := columnValues s.width s.uploadData s.downloadData x
    columnCell s.scalingMode s.overlayMode s.maxValue s.height p.1 p.2 y

/-- `Render` from braille.go lines 514-586, as the grid of cells it emits:
`height` rows (joined by a single newline each, no trailing newline) of
`width` cells each. -/
noncomputable def Render (bc : BrailleChart) : List (List Cell) :=
  (List.range bc.height).map fun y => (List.range bc.width).map fun x => cellAt bc x y

/-- The state `Render` leaves behind: it runs `updateMaxValue` unless both
series are empty (braille.go lines 515-521). -/
def renderStateUpdate (bc : BrailleChart) : BrailleChart :=
  if bc.uploadData.length = 0 ∧ bc.downloadData.length = 0 then bc else updateMaxValue bc

/-- The public operations exercised by the invariant claims. -/
inductive ChartOp where
  | add (upload download : ℕ)
  | setMaxPoints (n : ℤ)
  | reset
  | render
deriving DecidableEq, Repr

/-- State transition of one public operation (for `render`, its effect on
the chart state; its output is `Render`). -/
def applyOp (bc : BrailleChart) : ChartOp → BrailleChart
  | .add u d => AddDataPoint bc u d
  | .setMaxPoints n => SetMaxPoints bc n
  | .reset => Reset bc
  | .render => renderStateUpdate bc

/-- Run a sequence of public operations. -/
def applyOps (bc : BrailleChart) (ops : List ChartOp) : BrailleChart :=
  ops.foldl applyOp bc

/-- Append a list of `(upload, download)` samples via `AddDataPoint`. -/
def addAll (bc : BrailleChart) (pts : List (ℕ × ℕ)) : BrailleChart :=
  pts.foldl (fun s p => AddDataPoint s p.1 p.2) bc

/-- A concrete 20×8 linear-scaling chart used for scroll scenarios. -/
def scrollChartBase : BrailleChart :=
  SetScalingMode (SetHeight (SetWidth (NewBrailleChart 100) 20) 8) .ScalingLinear

/-- The scroll-scenario chart after twenty `(1024, 0)` samples: every
column is visible and drawn at full half-height scale. -/
def scrollChart20 : BrailleChart :=
  addAll scrollChartBase (List.replicate 20 (1024, 0))

/-- `GetTimeScaleSeconds` from the time-scale chart variant
(src/unnamed/part_014 lines 483-503). -/
def GetTimeScaleSeconds : TimeScale → ℕ
  | .TimeScale1Min => 60
  | .TimeScale3Min => 180
  | .TimeScale5Min => 300
  | .TimeScale10Min => 600
  | .TimeScale15Min => 900
  | .TimeScale30Min => 1800
  | .TimeScale60Min => 3600

/-- The aggregation window size in samples: `timeScaleSeconds / 60`,
floored at 1 (src/unnamed/part_011 lines 124-129). -/
def windowSizeOf (ts : TimeScale) : ℕ :=
  let w := GetTimeScaleSeconds ts / 60
  if w < 1 then 1 else w

/-- `getVisibleDataMax` from the time-scale chart variant
(src/unnamed/part_011 lines 108-194): for a non-1-minute scale, the fold
over the last up-to-`width` aggregation windows; for the 1-minute scale,
the fold over the rightmost `width` raw samples. -/
def getVisibleDataMax011 (ts : TimeScale) (width : ℕ) (up dl : List ℕ) : ℕ :=
  let dataLen := max up.length dl.length
  if dataLen = 0 then 0
  else if ts ≠ .TimeScale1Min then
    let windowSize := windowSizeOf ts
    let totalCompleteWindows := dataLen / windowSize
    let totalWindows :=
      if dataLen % windowSize ≠ 0 then totalCompleteWindows + 1 else totalCompleteWindows
    let firstVisibleWindow := if totalWindows > width then totalWindows - width else 0
    (List.range (totalWindows - firstVisibleWindow)).foldl
      (fun m j =>
        let windowStartIndex := (firstVisibleWindow + j) * windowSize
        if windowStartIndex ≥ dataLen then m
        else
          let windowEndIndex := min (windowStartIndex + windowSize) dataLen
          let m1 := ((up.drop windowStartIndex).take (windowEndIndex - windowStartIndex)).foldl max m
          ((dl.drop windowStartIndex).take (windowEndIndex - windowStartIndex)).foldl max m1)
      0
  else
    let startIndex := if dataLen > width then dataLen - width else 0
    (dl.drop startIndex).foldl max ((up.drop startIndex).foldl max 0)

/-- The sample-buffer state of the time-scale chart variant
(src/unnamed/part_011), which carries a `timeScale` field. -/
structure Chart011 where
  width : ℕ
  maxPoints : ℤ
  timeScale : TimeScale
  uploadData : List ℕ
  downloadData : List ℕ
  maxValue : ℕ
  currentMax : ℕ
deriving DecidableEq, Repr

/-- `recalculateMax` of the variant (src/unnamed/part_011 lines 53-66). -/
def recalculateMax011 (bc : Chart011) : Chart011 :=
  { bc with currentMax := bc.downloadData.foldl max (bc.uploadData.foldl max 0) }

/-- `trimDataIfNeeded` of the variant (src/unnamed/part_011 lines 30-51). -/
def trimDataIfNeeded011 (bc : Chart011) : Chart011 :=
  let s1 :=
    if (bc.uploadData.length : ℤ) > bc.maxPoints then
      let removedUpload := bc.uploadData.headI
      let t := { bc with uploadData := bc.uploadData.tail }
      if removedUpload = bc.currentMax then recalculateMax011 t else t
    else bc
  if (s1.downloadData.length : ℤ) > s1.maxPoints then
    let removedDownload := s1.downloadData.headI
    let t := { s1 with downloadData := s1.downloadData.tail }
    if removedDownload = s1.currentMax then recalculateMax011 t else t
  else s1

/-- `updateMaxValue` of the variant (src/unnamed/part_011 lines 68-85):
floors the visible max at 1024 and applies hysteresis — `maxValue` is
raised immediately but lowered only when it exceeds twice the visible max. -/
def updateMaxValue011 (bc : Chart011) : Chart011 :=
  let visibleMax0 := getVisibleDataMax011 bc.timeScale bc.width bc.uploadData bc.downloadData
  let visibleMax := if visibleMax0 < 1024 then 1024 else visibleMax0
  if visibleMax > bc.maxValue then { bc with maxValue := visibleMax }
  else if bc.maxValue > visibleMax * 2 ∧ visibleMax > 1024 then { bc with maxValue := visibleMax }
  else bc

/-- `AddDataPoint` of the variant (src/unnamed/part_011 lines 5-18). -/
def AddDataPoint011 (bc : Chart011) (upload download : ℕ) : Chart011 :=
  let s0 := { bc with currentMax := max (max bc.currentMax upload) download }
  let s1 := { s0 with
    uploadData := s0.uploadData ++ [upload]
    downloadData := s0.downloadData ++ [download] }
  updateMaxValue011 (trimDataIfNeeded011 s1)

/-- A fresh time-scale chart on a given time scale: constructor defaults of
the variant (width 80, `maxValue` 1024, empty series). -/
def newChart011 (maxPoints : ℤ) (ts : TimeScale) : Chart011 :=
  { width := 80
    maxPoints := maxPoints
    timeScale := ts
    uploadData := []
    downloadData := []
    maxValue := 1024
    currentMax := 0 }

/-- Stated from the spec's words for comparison with the source: the
maximum over the samples falling into the currently visible aggregation
windows `[i*k, min((i+1)*k, dataLen))`, the last up-to-`width` windows of
the `ceil(dataLen / k)` total windows. -/
def specVisibleWindowsMax (k width : ℕ) (up dl : List ℕ) : ℕ :=
  let dataLen := max up.length dl.length
  let totalWindows := (dataLen + k - 1) / k
  let visible := (List.range totalWindows).drop (totalWindows - width)
  visible.foldl
    (fun m i =>
      let s := i * k
      let e := min ((i + 1) * k) dataLen
      max m (max (listMax ((up.drop s).take (e - s)))
                 (listMax ((dl.drop s).take (e - s)))))
    0

/-- Stated from the spec's words for comparison with the source: the
maximum over the most recent `width` raw samples of both series. -/
def specLastWidthMax (width : ℕ) (up dl : List ℕ) : ℕ :=
  let dataLen := max up.length dl.length
  max (listMax (up.drop (dataLen - width))) (listMax (dl.drop (dataLen - width)))

theorem foldl_max_eq (l : List ℕ) (a : ℕ) : l.foldl max a = max a (listMax l) := by
  have key : ∀ (t : List ℕ) (b : ℕ), t.foldl max b = max b (t.foldl max 0) := by
    intro t
    induction t with
    | nil => intro b; simp
    | cons x t ih =>
        intro b
        simp only [List.foldl_cons]
        rw [ih (max b x), ih (max 0 x), Nat.zero_max, max_assoc]
  exact key l a

theorem listMax_cons (x : ℕ) (l : List ℕ) : listMax (x :: l) = max x (listMax l) := by
  simp only [listMax, List.foldl_cons]
  rw [foldl_max_eq l (max 0 x), Nat.zero_max]
  rfl

theorem listMax_append (a b : List ℕ) : listMax (a ++ b) = max (listMax a) (listMax b) := by
  simp only [listMax, List.foldl_append]
  exact foldl_max_eq b (a.foldl max 0)

/-- Division by a nonnegative denominator is monotone in the numerator
(with Lean's `x / 0 = 0` this needs no positivity). -/
theorem div_le_div_nonneg_denom (a b c : ℝ) (hab : a ≤ b) (hc : 0 ≤ c) :
    a / c ≤ b / c := by
  rcases eq_or_lt_of_le hc with h | h
  · simp [← h]
  · exact (div_le_div_iff_of_pos_right h).mpr hab

/-- The floored numerator of the logarithmic branch is nonnegative. -/
theorem logb_floor_nonneg (v : ℕ) :
    0 ≤ Real.logb 10 (max (v : ℝ) minLogValue) - Real.logb 10 minLogValue := by
  have h1 : (0:ℝ) < minLogValue := by norm_num [minLogValue]
  have := Real.logb_le_logb_of_le (b := 10) (by norm_num) h1
    (le_max_right (v:ℝ) minLogValue)
  linarith

theorem scaleValue_nonneg (mode : ScalingMode) (v m : ℕ) :
    0 ≤ scaleValue mode v m := by
  unfold scaleValue
  split
  · norm_num
  · cases mode with
    | ScalingLinear => positivity
    | ScalingSquareRoot => positivity
    | ScalingLogarithmic =>
        dsimp only
        exact div_nonneg (logb_floor_nonneg v) (logb_floor_nonneg m)

theorem logb_floor_mono {v w : ℕ} (hvw : v ≤ w) :
    Real.logb 10 (max (v : ℝ) minLogValue) ≤ Real.logb 10 (max (w : ℝ) minLogValue) := by
  have h1 : (0:ℝ) < max (v:ℝ) minLogValue := by
    have : (0:ℝ) < minLogValue := by norm_num [minLogValue]
    exact lt_max_of_lt_right this
  exact Real.logb_le_logb_of_le (by norm_num) h1
    (max_le_max (by exact_mod_cast hvw) le_rfl)

theorem scaleValue_mono (mode : ScalingMode) (m : ℕ) {v w : ℕ} (hvw : v ≤ w) :
    scaleValue mode v m ≤ scaleValue mode w m := by
  by_cases hv : v = 0
  · subst hv
    have h0 : scaleValue mode 0 m = 0 := by unfold scaleValue; simp
    rw [h0]
    exact scaleValue_nonneg mode w m
  · have hw : w ≠ 0 := by omega
    unfold scaleValue
    rw [if_neg hv, if_neg hw]
    cases mode with
    | ScalingLinear =>
        exact div_le_div_nonneg_denom _ _ _ (by exact_mod_cast hvw) (Nat.cast_nonneg m)
    | ScalingSquareRoot =>
        exact div_le_div_nonneg_denom _ _ _
          (Real.sqrt_le_sqrt (by exact_mod_cast hvw)) (Real.sqrt_nonneg _)
    | ScalingLogarithmic =>
        dsimp only
        apply div_le_div_nonneg_denom
        · have := logb_floor_mono hvw
          linarith
        · exact logb_floor_nonneg m

theorem scaleValue_le_one (mode : ScalingMode) {v m : ℕ} (hvm : v ≤ m) :
    scaleValue mode v m ≤ 1 := by
  by_cases hv : v = 0
  · subst hv
    have h0 : scaleValue mode 0 m = 0 := by unfold scaleValue; simp
    rw [h0]; norm_num
  · have hm : 1 ≤ m := by omega
    unfold scaleValue
    rw [if_neg hv]
    cases mode with
    | ScalingLinear =>
        have hm' : (0:ℝ) < m := by exact_mod_cast hm
        exact (div_le_one hm').mpr (by exact_mod_cast hvm)
    | ScalingSquareRoot =>
        have hm' : (0:ℝ) < Real.sqrt m := Real.sqrt_pos.mpr (by exact_mod_cast hm)
        exact (div_le_one hm').mpr (Real.sqrt_le_sqrt (by exact_mod_cast hvm))
    | ScalingLogarithmic =>
        dsimp only
        set num := Real.logb 10 (max (v : ℝ) minLogValue) - Real.logb 10 minLogValue with hnum
        set den := Real.logb 10 (max (m : ℝ) minLogValue) - Real.logb 10 minLogValue with hden
        have hnd : num ≤ den := by
          have := logb_floor_mono hvm
          simp only [hnum, hden]
          linarith
        rcases eq_or_lt_of_le (logb_floor_nonneg m) with h0 | h0
        · rw [hden, ← h0, div_zero]; norm_num
        · exact (div_le_one (by rw [hden]; exact h0)).mpr hnd

theorem logb_floor_eq_zero_iff (m : ℕ) :
    Real.logb 10 (max (m : ℝ) minLogValue) - Real.logb 10 minLogValue = 0 ↔ m ≤ 1024 := by
  constructor
  · intro h
    by_contra hm
    push_neg at hm
    have hcast : (1024 : ℝ) < (m : ℝ) := by exact_mod_cast hm
    have hmax : max (m : ℝ) minLogValue = (m : ℝ) := by
      apply max_eq_left
      simp only [minLogValue]
      linarith
    rw [hmax] at h
    have := Real.logb_lt_logb (b := 10) (by norm_num)
      (show (0:ℝ) < minLogValue by norm_num [minLogValue])
      (show minLogValue < (m : ℝ) by simp only [minLogValue]; linarith)
    linarith
  · intro h
    have hcast : (m : ℝ) ≤ 1024 := by exact_mod_cast h
    have hmax : max (m : ℝ) minLogValue = minLogValue := by
      apply max_eq_right
      simp only [minLogValue]
      linarith
    rw [hmax]
    ring

/-- The claim asserts that `scaleValue` stays in `[0,1]` for every value,
maximum and mode, and never divides by zero because `maxValue == 0` is
replaced by the 1024 floor. Both parts fail: in Linear mode the division
is by `float64(maxValue)` itself, so `maxValue = 0` with a nonzero value
is a zero-denominator division, and `scaleValue(2048, 1024)` in Linear
mode is 2, outside `[0,1]`. -/
theorem scaleValue_divzero_counterexample :
    scaleDivZero .ScalingLinear 1 0 ∧ scaleValue .ScalingLinear 2048 1024 = 2 := by
  constructor
  · exact ⟨one_ne_zero, by norm_num⟩
  · unfold scaleValue
    norm_num

/-- C1 (amended): for every mode, `scaleValue value maxValue` lies in
`[0,1]` whenever `value ≤ maxValue` (reading a zero-denominator division
as 0); the 1024 floor protects only the Logarithmic mode, and there the
normalizing denominator is zero exactly when `maxValue ≤ 1024`, while the
Linear and SquareRoot modes divide by `maxValue` directly and hit a zero
denominator exactly when `maxValue = 0` (with a nonzero value). -/
theorem scaleValue_range_of_le_max :
    (∀ (mode : ScalingMode) (v m : ℕ), v ≤ m →
      0 ≤ scaleValue mode v m ∧ scaleValue mode v m ≤ 1) ∧
    (∀ v m : ℕ, scaleDivZero .ScalingLinear v m ↔ v ≠ 0 ∧ m = 0) ∧
    (∀ v m : ℕ, scaleDivZero .ScalingLogarithmic v m ↔ v ≠ 0 ∧ m ≤ 1024) ∧
    (∀ v m : ℕ, scaleDivZero .ScalingSquareRoot v m ↔ v ≠ 0 ∧ m = 0) := by
  refine ⟨fun mode v m h => ⟨scaleValue_nonneg mode v m, scaleValue_le_one mode h⟩,
    fun v m => ?_, fun v m => ?_, fun v m => ?_⟩
  · unfold scaleDivZero
    exact and_congr_right fun _ => by exact_mod_cast Iff.rfl
  · unfold scaleDivZero
    exact and_congr_right fun _ => logb_floor_eq_zero_iff m
  · unfold scaleDivZero
    exact and_congr_right fun _ =>
      (Real.sqrt_eq_zero (Nat.cast_nonneg m)).trans (by exact_mod_cast Iff.rfl)

/-- Witness: C1's amended range bound at value 512 below maximum 1024 in
the default Logarithmic mode. -/
theorem scaleValue_range_of_le_max_witness :
    0 ≤ scaleValue .ScalingLogarithmic 512 1024 ∧
      scaleValue .ScalingLogarithmic 512 1024 ≤ 1 :=
  scaleValue_range_of_le_max.1 .ScalingLogarithmic 512 1024 (by norm_num)

/-- The claim asserts `scale(maxValue, maxValue, Linear) = 1` for every
`maxValue`; at `maxValue = 0` the `value == 0` short-circuit returns 0
instead. -/
theorem scaleValue_linear_zero_counterexample :
    scaleValue .ScalingLinear 0 0 = 0 ∧ scaleValue .ScalingLinear 0 0 ≠ 1 := by
  unfold scaleValue
  norm_num

/-- C5 (amended): `scaleValue mode 0 maxValue = 0` for every mode;
`scaleValue Linear maxValue maxValue = 1` for every `maxValue ≥ 1`
(`maxValue = 0` returns 0 via the zero-value short-circuit); `scaleValue`
is non-decreasing in the value for every fixed maximum and mode. -/
theorem scaleValue_boundary_monotone :
    (∀ (mode : ScalingMode) (m : ℕ), scaleValue mode 0 m = 0) ∧
    (∀ m : ℕ, 1 ≤ m → scaleValue .ScalingLinear m m = 1) ∧
    (∀ (mode : ScalingMode) (m v w : ℕ), v ≤ w →
      scaleValue mode v m ≤ scaleValue mode w m) := by
  refine ⟨fun mode m => by unfold scaleValue; simp, fun m hm => ?_,
    fun mode m v w h => scaleValue_mono mode m h⟩
  unfold scaleValue
  rw [if_neg (by omega)]
  have hm' : (m : ℝ) ≠ 0 := by
    have : (0:ℝ) < m := by exact_mod_cast hm
    linarith
  exact div_self hm'

/-- Witness: C5's boundary identity and monotonicity at concrete inputs. -/
theorem scaleValue_boundary_monotone_witness :
    scaleValue .ScalingLinear 2048 2048 = 1 ∧
      scaleValue .ScalingSquareRoot 5 9 ≤ scaleValue .ScalingSquareRoot 7 9 :=
  ⟨scaleValue_boundary_monotone.2.1 2048 (by norm_num),
   scaleValue_boundary_monotone.2.2 .ScalingSquareRoot 9 5 7 (by norm_num)⟩

theorem updateMaxValue_width (bc : BrailleChart) : (updateMaxValue bc).width = bc.width := rfl

theorem updateMaxValue_height (bc : BrailleChart) : (updateMaxValue bc).height = bc.height := rfl

theorem updateMaxValue_uploadData (bc : BrailleChart) :
    (updateMaxValue bc).uploadData = bc.uploadData := rfl

theorem updateMaxValue_downloadData (bc : BrailleChart) :
    (updateMaxValue bc).downloadData = bc.downloadData := rfl

theorem updateMaxValue_overlayMode (bc : BrailleChart) :
    (updateMaxValue bc).overlayMode = bc.overlayMode := rfl

theorem updateMaxValue_scalingMode (bc : BrailleChart) :
    (updateMaxValue bc).scalingMode = bc.scalingMode := rfl

theorem updateMaxValue_maxPoints (bc : BrailleChart) :
    (updateMaxValue bc).maxPoints = bc.maxPoints := rfl

theorem updateMaxValue_currentMax (bc : BrailleChart) :
    (updateMaxValue bc).currentMax = bc.currentMax := rfl

/-- A fold that ORs in dot patterns only under a condition returns its
accumulator when every condition is false. -/
theorem foldl_dots_all_false (f : ℕ → Bool) (l : List ℕ) (acc : ℕ)
    (h : ∀ r ∈ l, f r = false) :
    l.foldl (fun a r => if f r then a ||| dotPattern r else a) acc = acc := by
  induction l generalizing acc with
  | nil => rfl
  | cons x t ih =>
      simp only [List.foldl_cons, h x (List.mem_cons_self x t), if_false]
      exact ih acc fun r hr => h r (List.mem_cons_of_mem x hr)

/-- A series of nonpositive height contributes no overlay dots to any row
inside the chart. -/
theorem overlayDots_nonpos (line height : ℕ) (h : ℤ) (hline : line < height)
    (hh : h ≤ 0) : overlayDots line h ((height * 4 : ℕ) : ℤ) = 0 := by
  unfold overlayDots
  apply foldl_dots_all_false
  intro r hr
  rw [List.mem_range] at hr
  unfold overlayDot
  simp only [decide_eq_false_iff_not]
  push_cast
  omega

/-- In overlay mode, equal upload and download heights make every cell
either blank or overlap-styled. -/
theorem overlay_equal_heights (line : ℕ) (h fullHeight : ℤ) :
    (createBrailleCharForOverlay line h h fullHeight).kind = .space ∨
      (createBrailleCharForOverlay line h h fullHeight).kind = .overlapStyled := by
  simp only [createBrailleCharForOverlay, Nat.and_self]
  split_ifs with h1 h2 h3 <;>
    first
      | exact Or.inl rfl
      | exact Or.inr rfl
      | exact absurd (not_not.mp h3) fun hz => h2 ⟨hz, hz⟩

/-- The upload and download values a column reads from two identical
series coincide. -/
theorem columnValues_same (width : ℕ) (l : List ℕ) (x : ℕ) :
    (columnValues width l l x).1 = (columnValues width l l x).2 := rfl

/-- C6: in overlay mode with identical upload and download series, every
rendered cell is blank or overlap-styled (never upload-only or
download-only); and in general a cell whose overlap dot set (the bitwise
AND of the two series' dot masks) is nonzero is styled as overlap for the
whole cell. -/
theorem overlay_overlap_styling :
    (∀ (bc : BrailleChart) (x y : ℕ), bc.overlayMode = true →
      bc.uploadData = bc.downloadData →
      (cellAt bc x y).kind = .space ∨ (cellAt bc x y).kind = .overlapStyled) ∧
    (∀ (height line : ℕ) (uH dH : ℤ), line < height →
      (createBrailleCharForOverlay line uH dH ((height * 4 : ℕ) : ℤ)).kind = .overlapStyled ∨
      overlayDots line uH ((height * 4 : ℕ) : ℤ) &&&
        overlayDots line dH ((height * 4 : ℕ) : ℤ) = 0) := by
  constructor
  · intro bc x y hov heq
    unfold cellAt
    split_ifs with hemp
    · exact Or.inl rfl
    · dsimp only
      rw [updateMaxValue_uploadData, updateMaxValue_downloadData, updateMaxValue_overlayMode,
        heq, hov]
      unfold columnCell
      rw [if_pos rfl, columnValues_same]
      exact overlay_equal_heights y _ _
  · intro height line uH dH hline
    by_cases hOv : overlayDots line uH ((height * 4 : ℕ) : ℤ) &&&
        overlayDots line dH ((height * 4 : ℕ) : ℤ) = 0
    · exact Or.inr hOv
    · left
      simp only [createBrailleCharForOverlay]
      split_ifs with h1 h2 h3 <;>
        first
          | rfl
          | exact absurd (by rw [overlayDots_nonpos line height uH hline (le_of_eq h1.1),
              Nat.zero_and]) hOv
          | exact absurd (by rw [h2.1, Nat.zero_and]) hOv
          | exact absurd (not_not.mp h3) hOv

/-- Witness: C6 at a one-sample overlay chart with equal series, and the
overlap-styling disjunction at a concrete full-height cell. -/
theorem overlay_overlap_styling_witness :
    ((cellAt (SetOverlayMode (AddDataPoint (NewBrailleChart 10) 2048 2048) true) 79 0).kind
        = .space ∨
      (cellAt (SetOverlayMode (AddDataPoint (NewBrailleChart 10) 2048 2048) true) 79 0).kind
        = .overlapStyled) ∧
    ((createBrailleCharForOverlay 7 32 32 ((8 * 4 : ℕ) : ℤ)).kind = .overlapStyled ∨
      overlayDots 7 32 ((8 * 4 : ℕ) : ℤ) &&& overlayDots 7 32 ((8 * 4 : ℕ) : ℤ) = 0) :=
  ⟨overlay_overlap_styling.1 _ 79 0 (by decide) (by decide),
   overlay_overlap_styling.2 8 7 32 32 (by norm_num)⟩

/-- C7: with `halfHeight = centerLine * 4` a multiple of four, the four
dot positions of any cell row lie entirely above or entirely below the
split axis, so no cell simultaneously carries upload and download dots
and the defensive both-set branch of `createBrailleCharForLineSplit` is
unreachable. -/
theorem split_no_simultaneous_dots :
    ∀ (line centerLine : ℕ) (uploadHeight downloadHeight : ℤ),
      0 ≤ uploadHeight → uploadHeight ≤ ((centerLine * 4 : ℕ) : ℤ) →
      0 ≤ downloadHeight → downloadHeight ≤ ((centerLine * 4 : ℕ) : ℤ) →
      (splitHasUpload line uploadHeight ((centerLine * 4 : ℕ) : ℤ) &&
        splitHasDownload line downloadHeight ((centerLine * 4 : ℕ) : ℤ)) = false := by
  intro line centerLine uH dH _ _ _ _
  refine Bool.eq_false_iff.mpr fun hab => ?_
  rw [Bool.and_eq_true] at hab
  obtain ⟨hu, hd⟩ := hab
  simp only [splitHasUpload, List.any_eq_true, splitUploadDot, decide_eq_true_eq,
    List.mem_range] at hu
  obtain ⟨r, hr, hge, _⟩ := hu
  simp only [splitHasDownload, List.any_eq_true, splitDownloadDot, decide_eq_true_eq,
    List.mem_range] at hd
  obtain ⟨r', hr', hlt, _⟩ := hd
  push_cast at hge hlt
  omega

/-- Witness: C7 at row 0 with `centerLine = 1` and both heights at the
half-height bound. -/
theorem split_no_simultaneous_dots_witness :
    (splitHasUpload 0 4 ((1 * 4 : ℕ) : ℤ) && splitHasDownload 0 4 ((1 * 4 : ℕ) : ℤ)) = false :=
  split_no_simultaneous_dots 0 1 4 4 (by norm_num) (by norm_num) (by norm_num) (by norm_num)

theorem listMax_headI_tail (l : List ℕ) : listMax l = max l.headI (listMax l.tail) := by
  cases l with
  | nil => simp [listMax]
  | cons x t => simp [listMax_cons]

theorem listMax_split_left (U D : List ℕ) :
    listMax (U ++ D) = max U.headI (listMax (U.tail ++ D)) := by
  rw [listMax_append, listMax_headI_tail U, max_assoc, ← listMax_append]

theorem listMax_split_right (U D : List ℕ) :
    listMax (U ++ D) = max D.headI (listMax (U ++ D.tail)) := by
  rw [listMax_append, listMax_headI_tail D, max_left_comm, ← listMax_append]

theorem eq_max_right_of_ne (h M cm : ℕ) (hcm : cm = max h M) (hne : ¬(h = cm)) :
    cm = M := by
  rcases max_choice h M with hx | hx <;> omega

/-- When neither series exceeds capacity, trimming is the identity. -/
theorem trimDataIfNeeded_of_le (bc : BrailleChart)
    (hlen : bc.uploadData.length = bc.downloadData.length)
    (hc : ¬((bc.uploadData.length : ℤ) > bc.maxPoints)) :
    trimDataIfNeeded bc = bc := by
  have hcd : ¬((bc.downloadData.length : ℤ) > bc.maxPoints) := by rw [← hlen]; exact hc
  simp only [trimDataIfNeeded, hc, hcd, if_false]

/-- When the series exceed capacity, trimming drops exactly the oldest
sample of each, keeps every other field, and keeps `currentMax` equal to
the exact maximum of the retained samples. -/
theorem trimDataIfNeeded_of_gt (bc : BrailleChart)
    (hlen : bc.uploadData.length = bc.downloadData.length)
    (hc : (bc.uploadData.length : ℤ) > bc.maxPoints) :
    (trimDataIfNeeded bc).uploadData = bc.uploadData.tail ∧
    (trimDataIfNeeded bc).downloadData = bc.downloadData.tail ∧
    (trimDataIfNeeded bc).maxPoints = bc.maxPoints ∧
    (trimDataIfNeeded bc).width = bc.width ∧
    (trimDataIfNeeded bc).height = bc.height ∧
    (trimDataIfNeeded bc).overlayMode = bc.overlayMode ∧
    (trimDataIfNeeded bc).scalingMode = bc.scalingMode ∧
    (bc.currentMax = listMax (bc.uploadData ++ bc.downloadData) →
      (trimDataIfNeeded bc).currentMax =
        listMax (bc.uploadData.tail ++ bc.downloadData.tail)) := by
  have hcd : (bc.downloadData.length : ℤ) > bc.maxPoints := by rw [← hlen]; exact hc
  simp only [trimDataIfNeeded, recalculateMax, hc, hcd, if_true]
  split_ifs with h1 h2 h3 <;> dsimp only <;>
    refine ⟨rfl, rfl, rfl, rfl, rfl, rfl, rfl, fun hcm => ?_⟩
  · simp [listMax, List.foldl_append]
  · dsimp only at h2
    have e1 : List.foldl max (List.foldl max 0 bc.uploadData.tail) bc.downloadData =
        listMax (bc.uploadData.tail ++ bc.downloadData) := by
      simp [listMax, List.foldl_append]
    rw [e1] at h2 ⊢
    exact eq_max_right_of_ne _ _ _ (listMax_split_right _ _) h2
  · simp [listMax, List.foldl_append]
  · dsimp only at h3
    have step1 : bc.currentMax = listMax (bc.uploadData.tail ++ bc.downloadData) :=
      eq_max_right_of_ne _ _ _ (hcm.trans (listMax_split_left _ _)) h1
    exact eq_max_right_of_ne _ _ _ (step1.trans (listMax_split_right _ _)) h3

theorem listMax_singleton (x : ℕ) : listMax [x] = x := by
  simp [listMax]

theorem listMax_concat (l : List ℕ) (x : ℕ) : listMax (l ++ [x]) = max (listMax l) x := by
  rw [listMax_append, listMax_singleton]

theorem currentMax_append_combine (U D : List ℕ) (u d : ℕ) :
    max (max (listMax (U ++ D)) u) d = listMax ((U ++ [u]) ++ (D ++ [d])) := by
  simp only [listMax_append, listMax_concat, listMax_singleton]
  simp [max_assoc, max_comm, max_left_comm]

/-- `AddDataPoint` written as trim-then-rescale of the appended state. -/
theorem AddDataPoint_eq (bc : BrailleChart) (u d : ℕ) :
    AddDataPoint bc u d = updateMaxValue (trimDataIfNeeded
      { bc with
          uploadData := bc.uploadData ++ [u],
          downloadData := bc.downloadData ++ [d],
          currentMax := max (max bc.currentMax u) d }) := rfl

/-- Effect of one `AddDataPoint` on a chart whose series have equal length:
the sample is appended; if capacity is exceeded the oldest sample of each
series is dropped; configuration fields are untouched; and an exact
`currentMax` stays exact. -/
theorem AddDataPoint_spec (bc : BrailleChart) (u d : ℕ)
    (hlen : bc.uploadData.length = bc.downloadData.length) :
    (¬((bc.uploadData.length + 1 : ℤ) > bc.maxPoints) →
      (AddDataPoint bc u d).uploadData = bc.uploadData ++ [u] ∧
      (AddDataPoint bc u d).downloadData = bc.downloadData ++ [d]) ∧
    ((bc.uploadData.length + 1 : ℤ) > bc.maxPoints →
      (AddDataPoint bc u d).uploadData = (bc.uploadData ++ [u]).tail ∧
      (AddDataPoint bc u d).downloadData = (bc.downloadData ++ [d]).tail) ∧
    (AddDataPoint bc u d).maxPoints = bc.maxPoints ∧
    (AddDataPoint bc u d).width = bc.width ∧
    (AddDataPoint bc u d).height = bc.height ∧
    (AddDataPoint bc u d).overlayMode = bc.overlayMode ∧
    (AddDataPoint bc u d).scalingMode = bc.scalingMode ∧
    (bc.currentMax = listMax (bc.uploadData ++ bc.downloadData) →
      (AddDataPoint bc u d).currentMax =
        listMax ((AddDataPoint bc u d).uploadData ++ (AddDataPoint bc u d).downloadData)) := by
  rw [AddDataPoint_eq]
  set S : BrailleChart :=
    { bc with
        uploadData := bc.uploadData ++ [u],
        downloadData := bc.downloadData ++ [d],
        currentMax := max (max bc.currentMax u) d } with hS
  have hSup : S.uploadData = bc.uploadData ++ [u] := rfl
  have hSdl : S.downloadData = bc.downloadData ++ [d] := rfl
  have hSmp : S.maxPoints = bc.maxPoints := rfl
  have hSlen : S.uploadData.length = S.downloadData.length := by
    rw [hSup, hSdl]
    simp [hlen]
  by_cases hc : (bc.uploadData.length + 1 : ℤ) > bc.maxPoints
  · have hc' : (S.uploadData.length : ℤ) > S.maxPoints := by
      rw [hSup, hSmp]
      simp only [List.length_append, List.length_singleton]
      push_cast
      push_cast at hc
      omega
    obtain ⟨e1, e2, _, e4, e5, e6, e7, e8⟩ := trimDataIfNeeded_of_gt S hSlen hc'
    refine ⟨fun hnc => absurd hc hnc, fun _ => ?_, ?_, ?_, ?_, ?_, ?_, fun hcm => ?_⟩
    · constructor
      · rw [updateMaxValue_uploadData, e1, hSup]
      · rw [updateMaxValue_downloadData, e2, hSdl]
    · rw [updateMaxValue_maxPoints]
      exact (trimDataIfNeeded_of_gt S hSlen hc').2.2.1.trans hSmp
    · rw [updateMaxValue_width]; exact e4
    · rw [updateMaxValue_height]; exact e5
    · rw [updateMaxValue_overlayMode]; exact e6
    · rw [updateMaxValue_scalingMode]; exact e7
    · have hScm : S.currentMax = listMax (S.uploadData ++ S.downloadData) := by
        rw [hSup, hSdl]
        show max (max bc.currentMax u) d = _
        rw [hcm]
        exact currentMax_append_combine _ _ _ _
      rw [updateMaxValue_currentMax, updateMaxValue_uploadData, updateMaxValue_downloadData,
        e1, e2, hSup, hSdl]
      have := e8 hScm
      rw [hSup, hSdl] at this
      exact this
  · have hc' : ¬((S.uploadData.length : ℤ) > S.maxPoints) := by
      rw [hSup, hSmp]
      simp only [List.length_append, List.length_singleton]
      push_cast
      push_cast at hc
      omega
    have heq := trimDataIfNeeded_of_le S hSlen hc'
    rw [heq]
    refine ⟨fun _ => ⟨?_, ?_⟩, fun hcc => absurd hcc hc, ?_, ?_, ?_, ?_, ?_, fun hcm => ?_⟩
    · rw [updateMaxValue_uploadData, hSup]
    · rw [updateMaxValue_downloadData, hSdl]
    · rw [updateMaxValue_maxPoints, hSmp]
    · rw [updateMaxValue_width]
    · rw [updateMaxValue_height]
    · rw [updateMaxValue_overlayMode]
    · rw [updateMaxValue_scalingMode]
    · rw [updateMaxValue_currentMax, updateMaxValue_uploadData, updateMaxValue_downloadData,
        hSup, hSdl]
      show max (max bc.currentMax u) d = _
      rw [hcm]
      exact currentMax_append_combine _ _ _ _

theorem tail_append_singleton {α : Type} {l : List α} (x : α) (h : l ≠ []) :
    (l ++ [x]).tail = l.tail ++ [x] := by
  cases l with
  | nil => exact absurd rfl h
  | cons a t => rfl

theorem SetMaxPoints_length_eq (bc : BrailleChart) (n : ℤ)
    (hlen : bc.uploadData.length = bc.downloadData.length) :
    (SetMaxPoints bc n).uploadData.length = (SetMaxPoints bc n).downloadData.length := by
  simp only [SetMaxPoints, recalculateMax]
  split_ifs with h1 h2 h3 h4 h5 <;>
    first
      | exact hlen
      | (simp only [List.length_drop]; omega)

theorem SetMaxPoints_maxValue (bc : BrailleChart) (n : ℤ) :
    (SetMaxPoints bc n).maxValue = bc.maxValue := by
  simp only [SetMaxPoints, recalculateMax]
  split_ifs <;> rfl

theorem applyOp_length_eq (bc : BrailleChart) (op : ChartOp)
    (hlen : bc.uploadData.length = bc.downloadData.length) :
    (applyOp bc op).uploadData.length = (applyOp bc op).downloadData.length := by
  cases op with
  | add u d =>
      obtain ⟨hno, hyes, _⟩ := AddDataPoint_spec bc u d hlen
      by_cases hc : (bc.uploadData.length + 1 : ℤ) > bc.maxPoints
      · obtain ⟨e1, e2⟩ := hyes hc
        show (AddDataPoint bc u d).uploadData.length = (AddDataPoint bc u d).downloadData.length
        rw [e1, e2]
        simp [hlen]
      · obtain ⟨e1, e2⟩ := hno hc
        show (AddDataPoint bc u d).uploadData.length = (AddDataPoint bc u d).downloadData.length
        rw [e1, e2]
        simp [hlen]
  | setMaxPoints n => exact SetMaxPoints_length_eq bc n hlen
  | reset => rfl
  | render =>
      show (renderStateUpdate bc).uploadData.length = (renderStateUpdate bc).downloadData.length
      unfold renderStateUpdate
      split_ifs
      · exact hlen
      · rw [updateMaxValue_uploadData, updateMaxValue_downloadData]
        exact hlen

theorem applyOps_length_eq (ops : List ChartOp) (bc : BrailleChart)
    (hlen : bc.uploadData.length = bc.downloadData.length) :
    (applyOps bc ops).uploadData.length = (applyOps bc ops).downloadData.length := by
  induction ops generalizing bc with
  | nil => exact hlen
  | cons op rest ih => exact ih (applyOp bc op) (applyOp_length_eq bc op hlen)

/-- C8: starting from a fresh chart, the upload and download series have
equal length after any sequence of public operations (`AddDataPoint`,
`SetMaxPoints`, `Reset`, and also `Render`). -/
theorem series_lengths_equal (mp : ℤ) (ops : List ChartOp) :
    (applyOps (NewBrailleChart mp) ops).uploadData.length =
      (applyOps (NewBrailleChart mp) ops).downloadData.length :=
  applyOps_length_eq ops (NewBrailleChart mp) rfl

theorem updateMaxValue_bounds (bc : BrailleChart) :
    1024 ≤ (updateMaxValue bc).maxValue ∧ (updateMaxValue bc).maxValue ≤ maxScaleLimit := by
  unfold updateMaxValue maxScaleLimit
  dsimp only
  split_ifs <;> omega

theorem applyOp_maxValue_bounds (bc : BrailleChart) (op : ChartOp)
    (h : 1024 ≤ bc.maxValue ∧ bc.maxValue ≤ maxScaleLimit) :
    1024 ≤ (applyOp bc op).maxValue ∧ (applyOp bc op).maxValue ≤ maxScaleLimit := by
  cases op with
  | add u d =>
      show 1024 ≤ (AddDataPoint bc u d).maxValue ∧ _
      rw [AddDataPoint_eq]
      exact updateMaxValue_bounds _
  | setMaxPoints n =>
      show 1024 ≤ (SetMaxPoints bc n).maxValue ∧ (SetMaxPoints bc n).maxValue ≤ maxScaleLimit
      rw [SetMaxPoints_maxValue]
      exact h
  | reset =>
      show 1024 ≤ (Reset bc).maxValue ∧ (Reset bc).maxValue ≤ maxScaleLimit
      have e : (Reset bc).maxValue = 1024 := rfl
      rw [e]
      exact ⟨le_refl _, by norm_num [maxScaleLimit]⟩
  | render =>
      show 1024 ≤ (renderStateUpdate bc).maxValue ∧
        (renderStateUpdate bc).maxValue ≤ maxScaleLimit
      unfold renderStateUpdate
      split_ifs
      · exact h
      · exact updateMaxValue_bounds bc

theorem applyOps_maxValue_bounds (ops : List ChartOp) (bc : BrailleChart)
    (h : 1024 ≤ bc.maxValue ∧ bc.maxValue ≤ maxScaleLimit) :
    1024 ≤ (applyOps bc ops).maxValue ∧ (applyOps bc ops).maxValue ≤ maxScaleLimit := by
  induction ops generalizing bc with
  | nil => exact h
  | cons op rest ih => exact ih (applyOp bc op) (applyOp_maxValue_bounds bc op h)

/-- C10: after construction and after every public operation (including
`AddDataPoint`, `Render` and `Reset`), the scaling maximum returned by
`GetMaxValue` is floored at 1 KiB and capped at 100 MiB/s:
`1024 ≤ maxValue ≤ 100 * 1024 * 1024`. -/
theorem addAll_spec (mp : ℕ) (hmp : 1 ≤ mp) (pts : List (ℕ × ℕ)) :
    (addAll (NewBrailleChart (mp : ℤ)) pts).maxPoints = (mp : ℤ) ∧
    (addAll (NewBrailleChart (mp : ℤ)) pts).uploadData =
      (pts.map Prod.fst).drop (pts.length - mp) ∧
    (addAll (NewBrailleChart (mp : ℤ)) pts).downloadData =
      (pts.map Prod.snd).drop (pts.length - mp) ∧
    (addAll (NewBrailleChart (mp : ℤ)) pts).currentMax =
      listMax ((addAll (NewBrailleChart (mp : ℤ)) pts).uploadData ++
        (addAll (NewBrailleChart (mp : ℤ)) pts).downloadData) := by
  induction pts using List.reverseRecOn with
  | nil =>
      refine ⟨rfl, ?_, ?_, ?_⟩ <;> simp [addAll, NewBrailleChart, listMax]
  | append_singleton pts p ih =>
      obtain ⟨ihmp, ihup, ihdl, ihcm⟩ := ih
      have hstep : addAll (NewBrailleChart (mp : ℤ)) (pts ++ [p]) =
          AddDataPoint (addAll (NewBrailleChart (mp : ℤ)) pts) p.1 p.2 := by
        simp [addAll, List.foldl_append]
      set T := addAll (NewBrailleChart (mp : ℤ)) pts with hT
      set n := pts.length with hn
      have hlenA : (pts.map Prod.fst).length = n := by
        rw [List.length_map]
      have hlenB : (pts.map Prod.snd).length = n := by
        rw [List.length_map]
      have hUlen : T.uploadData.length = n - (n - mp) := by
        rw [ihup, List.length_drop, hlenA]
      have hDlen : T.downloadData.length = n - (n - mp) := by
        rw [ihdl, List.length_drop, hlenB]
      have hTlen : T.uploadData.length = T.downloadData.length := by rw [hUlen, hDlen]
      obtain ⟨hno, hyes, hmp', _, _, _, _, hcm'⟩ := AddDataPoint_spec T p.1 p.2 hTlen
      rw [hstep]
      have hsub : n + 1 - mp = (n - mp) + 1 ∨ n + 1 - mp = 0 := by omega
      refine ⟨by rw [hmp', ihmp], ?_, ?_, hcm' ihcm⟩ <;>
        by_cases hc : (T.uploadData.length + 1 : ℤ) > T.maxPoints
      · have hnge : mp ≤ n := by
          rw [hUlen, ihmp] at hc
          omega
        obtain ⟨e1, _⟩ := hyes hc
        rw [e1, ihup, List.map_append, List.length_append]
        simp only [List.length_singleton, List.map_cons, List.map_nil]
        have hk : n + 1 - mp ≤ (pts.map Prod.fst).length := by rw [hlenA]; omega
        rw [List.drop_append_of_le_length hk]
        have hne : (pts.map Prod.fst).drop (n - mp) ≠ [] := by
          intro hnil
          have hl := congrArg List.length hnil
          rw [List.length_drop, hlenA, List.length_nil] at hl
          omega
        rw [tail_append_singleton _ hne, List.tail_drop]
        have harith : n + 1 - mp = (n - mp) + 1 := by omega
        rw [harith]
      · have hlt : n < mp := by
          rw [hUlen, ihmp] at hc
          omega
        obtain ⟨e1, _⟩ := hno hc
        rw [e1, ihup, List.map_append, List.length_append]
        simp only [List.length_singleton, List.map_cons, List.map_nil]
        have h0 : n - mp = 0 := by omega
        have h0' : n + 1 - mp = 0 := by omega
        rw [h0, h0', List.drop_zero, List.drop_zero]
      · have hnge : mp ≤ n := by
          rw [hUlen, ihmp] at hc
          omega
        obtain ⟨_, e2⟩ := hyes hc
        rw [e2, ihdl, List.map_append, List.length_append]
        simp only [List.length_singleton, List.map_cons, List.map_nil]
        have hk : n + 1 - mp ≤ (pts.map Prod.snd).length := by rw [hlenB]; omega
        rw [List.drop_append_of_le_length hk]
        have hne : (pts.map Prod.snd).drop (n - mp) ≠ [] := by
          intro hnil
          have hl := congrArg List.length hnil
          rw [List.length_drop, hlenB, List.length_nil] at hl
          omega
        rw [tail_append_singleton _ hne, List.tail_drop]
        have harith : n + 1 - mp = (n - mp) + 1 := by omega
        rw [harith]
      · have hlt : n < mp := by
          rw [hUlen, ihmp] at hc
          omega
        obtain ⟨_, e2⟩ := hno hc
        rw [e2, ihdl, List.map_append, List.length_append]
        simp only [List.length_singleton, List.map_cons, List.map_nil]
        have h0 : n - mp = 0 := by omega
        have h0' : n + 1 - mp = 0 := by omega
        rw [h0, h0', List.drop_zero, List.drop_zero]

/-- C3: from a fresh chart with capacity `maxPoints ≥ 1`, after any
sequence of `AddDataPoint` calls the retained series are exactly the most
recent `maxPoints` samples in order (oldest evicted first), the buffer
never exceeds `maxPoints`, and `currentMax` equals the exact maximum over
all retained upload and download values. -/
theorem addDataPoint_capacity_fifo (pts : List (ℕ × ℕ)) (mp : ℕ) (hmp : 1 ≤ mp) :
    (addAll (NewBrailleChart (mp : ℤ)) pts).uploadData =
      (pts.map Prod.fst).drop (pts.length - mp) ∧
    (addAll (NewBrailleChart (mp : ℤ)) pts).downloadData =
      (pts.map Prod.snd).drop (pts.length - mp) ∧
    (addAll (NewBrailleChart (mp : ℤ)) pts).uploadData.length ≤ mp ∧
    (addAll (NewBrailleChart (mp : ℤ)) pts).downloadData.length ≤ mp ∧
    (addAll (NewBrailleChart (mp : ℤ)) pts).currentMax =
      listMax ((addAll (NewBrailleChart (mp : ℤ)) pts).uploadData ++
        (addAll (NewBrailleChart (mp : ℤ)) pts).downloadData) := by
  obtain ⟨_, e1, e2, e3⟩ := addAll_spec mp hmp pts
  refine ⟨e1, e2, ?_, ?_, e3⟩
  · rw [e1]
    simp
    omega
  · rw [e2]
    simp
    omega

theorem foldl_congr_mem {α β : Type} (l : List β) (f g : α → β → α) (a : α)
    (h : ∀ x ∈ l, ∀ acc, f acc x = g acc x) : l.foldl f a = l.foldl g a := by
  induction l generalizing a with
  | nil => rfl
  | cons x t ih =>
      rw [List.foldl_cons, List.foldl_cons, h x (List.mem_cons_self x t)]
      exact ih _ fun y hy acc => h y (List.mem_cons_of_mem x hy) acc

/-- The variant's `totalWindows` count (`dataLen/k`, plus one for a partial
window) equals ceiling division. -/
theorem totalWindows_eq_ceil (n k : ℕ) (hk : 1 ≤ k) :
    (if n % k ≠ 0 then n / k + 1 else n / k) = (n + k - 1) / k := by
  have hdm := Nat.div_add_mod n k
  have hr : n % k < k := Nat.mod_lt _ hk
  set q := n / k with hq
  set r := n % k with hr'
  split_ifs with h
  · have e1 : (q + 1) * k = k * q + k := by ring
    have e2 : (q + 1 + 1) * k = k * q + k + k := by ring
    refine (Nat.div_eq_of_lt_le ?_ ?_).symm
    · rw [e1]
      omega
    · rw [e2]
      omega
  · have e1 : q * k = k * q := by ring
    have e2 : (q + 1) * k = k * q + k := by ring
    refine (Nat.div_eq_of_lt_le ?_ ?_).symm
    · rw [e1]
      omega
    · rw [e2]
      omega

/-- Every window index below the ceiling count starts inside the data. -/
theorem window_start_lt (i n k : ℕ) (hk : 1 ≤ k) (hn : 1 ≤ n)
    (hi : i < (n + k - 1) / k) : i * k < n := by
  have h1 : i + 1 ≤ (n + k - 1) / k := hi
  have h2 : (i + 1) * k ≤ n + k - 1 := (Nat.le_div_iff_mul_le hk).mp h1
  have h3 : (i + 1) * k = i * k + k := by ring
  omega

/-- C4 proof core, non-1-minute branch: the variant's visible max equals
the spec-worded maximum over the visible aggregation windows. -/
theorem getVisibleDataMax011_windows (ts : TimeScale) (width : ℕ) (up dl : List ℕ)
    (hts : ts ≠ .TimeScale1Min) :
    getVisibleDataMax011 ts width up dl =
      specVisibleWindowsMax (windowSizeOf ts) width up dl := by
  have hk1 : 1 ≤ windowSizeOf ts := by cases ts <;> decide
  simp only [getVisibleDataMax011, specVisibleWindowsMax]
  set k := windowSizeOf ts with hkdef
  set n := max up.length dl.length with hndef
  by_cases hn : n = 0
  · rw [if_pos hn, hn]
    have htw : (0 + k - 1) / k = 0 := Nat.div_eq_of_lt (by omega)
    rw [htw]
    simp
  · rw [if_neg hn, if_pos hts]
    rw [totalWindows_eq_ceil n k hk1]
    have hn1 : 1 ≤ n := by omega
    generalize htw : (n + k - 1) / k = tw
    have hfv : (if tw > width then tw - width else 0) = tw - width := by
      split_ifs <;> omega
    rw [hfv]
    have hsplit : List.range tw = List.range (tw - width) ++
        (List.range (tw - (tw - width))).map ((tw - width) + ·) := by
      rw [← List.range_add]
      congr 1
      omega
    rw [hsplit, List.drop_left' (List.length_range _), List.foldl_map]
    apply foldl_congr_mem
    intro j hj acc
    rw [List.mem_range] at hj
    have hjlt : (tw - width) + j < tw := by omega
    have hstart : ((tw - width) + j) * k < n :=
      window_start_lt _ _ _ hk1 hn1 (htw ▸ hjlt)
    rw [if_neg (by omega)]
    have hek : ((tw - width) + j) * k + k = ((tw - width) + j + 1) * k := by ring
    rw [hek]
    rw [foldl_max_eq, foldl_max_eq]
    simp [max_assoc, max_comm, max_left_comm, listMax]

/-- C4 proof core, 1-minute branch: the variant's visible max equals the
maximum over the most recent `width` raw samples. -/
theorem getVisibleDataMax011_1min (width : ℕ) (up dl : List ℕ) :
    getVisibleDataMax011 .TimeScale1Min width up dl = specLastWidthMax width up dl := by
  simp only [getVisibleDataMax011, specLastWidthMax]
  set n := max up.length dl.length with hndef
  by_cases hn : n = 0
  · rw [if_pos hn]
    have hu : up.length = 0 := by omega
    have hd : dl.length = 0 := by omega
    rw [List.length_eq_zero] at hu hd
    subst hu
    subst hd
    simp [listMax]
  · rw [if_neg hn]
    rw [if_neg (by simp)]
    have hst : (if n > width then n - width else 0) = n - width := by
      split_ifs <;> omega
    rw [hst, foldl_max_eq]
    rfl

/-- The claim asserts the render-scale `maxValue` equals the max over the
visible aggregation windows; the variant floors that max at 1024 (and
applies hysteresis when lowering), so after appending the single sample
`(1,1)` on the 3-minute scale `maxValue` is 1024 while the windowed
visible max is 1. -/
theorem visibleMax_maxValue_counterexample :
    (AddDataPoint011 (newChart011 100 .TimeScale3Min) 1 1).maxValue = 1024 ∧
    specVisibleWindowsMax 3 80 [1] [1] = 1 ∧
    (AddDataPoint011 (newChart011 100 .TimeScale3Min) 1 1).maxValue ≠
      getVisibleDataMax011 (AddDataPoint011 (newChart011 100 .TimeScale3Min) 1 1).timeScale
        (AddDataPoint011 (newChart011 100 .TimeScale3Min) 1 1).width
        (AddDataPoint011 (newChart011 100 .TimeScale3Min) 1 1).uploadData
        (AddDataPoint011 (newChart011 100 .TimeScale3Min) 1 1).downloadData := by
  refine ⟨by decide, by decide, by decide⟩

/-- C4 (amended): the visible-data maximum feeding the render scale is,
for every non-1-minute time scale, exactly the maximum over the samples in
the currently visible aggregation windows `[i*k, min((i+1)*k, dataLen))`
(the last up-to-`chartWidth` windows), and for the 1-minute scale the
maximum of the most recent `chartWidth` raw samples; the two differ in
general (`maxValue` itself then tracks this visible max with a 1024 floor
and lowering hysteresis). -/
theorem getVisibleDataMax_windows_spec :
    (∀ (ts : TimeScale) (width : ℕ) (up dl : List ℕ), ts ≠ .TimeScale1Min →
      getVisibleDataMax011 ts width up dl =
        specVisibleWindowsMax (windowSizeOf ts) width up dl) ∧
    (∀ (width : ℕ) (up dl : List ℕ),
      getVisibleDataMax011 .TimeScale1Min width up dl = specLastWidthMax width up dl) ∧
    specVisibleWindowsMax 3 20 (5000 :: List.replicate 21 10) (List.replicate 22 0) ≠
      specLastWidthMax 20 (5000 :: List.replicate 21 10) (List.replicate 22 0) := by
  refine ⟨fun ts width up dl hts => getVisibleDataMax011_windows ts width up dl hts,
    getVisibleDataMax011_1min, by decide⟩

/-- Witness: C4's window characterization at the 3-minute scale on a
five-sample buffer whose interior spike lands mid-window. -/
theorem getVisibleDataMax_windows_spec_witness :
    getVisibleDataMax011 .TimeScale3Min 20 [7, 2, 9, 1, 1] [1, 1, 1, 1, 1] =
      specVisibleWindowsMax (windowSizeOf .TimeScale3Min) 20 [7, 2, 9, 1, 1] [1, 1, 1, 1, 1] :=
  getVisibleDataMax_windows_spec.1 .TimeScale3Min 20 _ _ (by decide)

/-- Witness: C3 with capacity 1 after appending `(5,1)` then `(3,0)`:
only the newest sample is retained and `currentMax` rescans to 3. -/
theorem addDataPoint_capacity_fifo_witness :
    (addAll (NewBrailleChart ((1 : ℕ) : ℤ)) [(5,1),(3,0)]).uploadData = [3] ∧
    (addAll (NewBrailleChart ((1 : ℕ) : ℤ)) [(5,1),(3,0)]).currentMax = 3 := by
  obtain ⟨e1, _, _, _, e5⟩ := addDataPoint_capacity_fifo [(5,1),(3,0)] 1 (by norm_num)
  refine ⟨by simpa using e1, ?_⟩
  rw [e5]
  decide

/-- C9: `Render` emits exactly `height` rows (joined by single newlines,
hence no trailing newline) and every row holds exactly `width` character
cells, for every chart state. -/
theorem render_dimensions (bc : BrailleChart) :
    (Render bc).length = bc.height ∧
    ∀ y, y < bc.height → ((Render bc).getD y []).length = bc.width := by
  constructor
  · simp [Render]
  · intro y hy
    unfold Render
    have hlen : y < ((List.range bc.height).map fun y =>
        (List.range bc.width).map fun x => cellAt bc x y).length := by
      simpa using hy
    rw [List.getD_eq_getElem _ _ hlen]
    simp

/-- Witness: C9 at a fresh chart (20 rows of 80 cells). -/
theorem render_dimensions_witness :
    (Render (NewBrailleChart 10)).length = (NewBrailleChart 10).height ∧
    ((Render (NewBrailleChart 10)).getD 3 []).length = (NewBrailleChart 10).width :=
  ⟨(render_dimensions _).1, (render_dimensions _).2 3 (by decide)⟩

theorem maxValue_bounds_invariant (mp : ℤ) (ops : List ChartOp) :
    1024 ≤ GetMaxValue (applyOps (NewBrailleChart mp) ops) ∧
      GetMaxValue (applyOps (NewBrailleChart mp) ops) ≤ 100 * 1024 * 1024 := by
  have e : (NewBrailleChart mp).maxValue = 1024 := rfl
  exact applyOps_maxValue_bounds ops (NewBrailleChart mp)
    (by rw [e]; exact ⟨le_refl _, by norm_num [maxScaleLimit]⟩)

theorem scaleValue_zero (mode : ScalingMode) (m : ℕ) : scaleValue mode 0 m = 0 := by
  unfold scaleValue
  simp

theorem scaledHeight_zero (mode : ScalingMode) (m limit : ℕ) :
    scaledHeight mode 0 m limit = 0 := by
  unfold scaledHeight
  rw [scaleValue_zero, zero_mul, Int.floor_zero]
  rw [if_neg (by omega)]

/-- Evaluate a linear-mode pixel height at a concrete exact quotient. -/
theorem scaledHeight_linear_eval (v m limit res : ℕ) (hv : v ≠ 0)
    (hres : (v : ℝ) / (m : ℝ) * (limit : ℝ) = (res : ℝ)) (hle : res ≤ limit) :
    scaledHeight .ScalingLinear v m limit = res := by
  unfold scaledHeight scaleValue
  rw [if_neg hv]
  dsimp only
  rw [hres, Int.floor_natCast]
  rw [if_neg (by omega)]

theorem columnCell_zero (mode : ScalingMode) (ov : Bool) (maxV height y : ℕ) :
    columnCell mode ov maxV height 0 0 y = ⟨0, .space⟩ := by
  simp only [columnCell]
  split_ifs
  · rw [scaledHeight_zero]
    simp [createBrailleCharForOverlay]
  · rw [scaledHeight_zero]
    simp [createBrailleCharForLineSplit]

theorem cellAt_eq (bc : BrailleChart) (x y : ℕ)
    (hne : ¬(bc.uploadData.length = 0 ∧ bc.downloadData.length = 0)) :
    cellAt bc x y = columnCell bc.scalingMode bc.overlayMode
      (updateMaxValue bc).maxValue bc.height
      (columnValues bc.width bc.uploadData bc.downloadData x).1
      (columnValues bc.width bc.uploadData bc.downloadData x).2 y := by
  unfold cellAt
  rw [if_neg hne]
  simp only [updateMaxValue_width, updateMaxValue_height, updateMaxValue_uploadData,
    updateMaxValue_downloadData, updateMaxValue_scalingMode, updateMaxValue_overlayMode]

theorem getD_tail (l : List ℕ) (n d : ℕ) : l.tail.getD n d = l.getD (n + 1) d := by
  cases l <;> rfl

theorem getD_concat_self (l : List ℕ) (x d : ℕ) : (l ++ [x]).getD l.length d = x := by
  induction l with
  | nil => rfl
  | cons a t ih => simpa using ih

/-- `columnValues` at an in-range data index reads both series there. -/
theorem columnValues_in_range (W x : ℕ) (up dl : List ℕ) (i : ℕ)
    (hlen : dl.length = up.length)
    (hidx : (i : ℤ) = (up.length : ℤ) - ((W : ℤ) - (x : ℤ)))
    (hlt : i < up.length) :
    columnValues W up dl x = (up.getD i 0, dl.getD i 0) := by
  unfold columnValues
  dsimp only
  have hmax : (max (up.length : ℤ) (dl.length : ℤ)) = (up.length : ℤ) := by
    rw [hlen]
    exact max_self _
  rw [hmax]
  rw [if_pos (by omega : 0 ≤ (up.length : ℤ) - ((W : ℤ) - (x : ℤ)) ∧
    (up.length : ℤ) - ((W : ℤ) - (x : ℤ)) < (up.length : ℤ))]
  rw [if_pos (by omega : 0 ≤ (up.length : ℤ) - ((W : ℤ) - (x : ℤ)) ∧
    (up.length : ℤ) - ((W : ℤ) - (x : ℤ)) < (dl.length : ℤ))]
  have htn : ((up.length : ℤ) - ((W : ℤ) - (x : ℤ))).toNat = i := by omega
  rw [htn]

/-- `columnValues` outside the data range reads `(0, 0)` for the column. -/
theorem columnValues_oob (W x : ℕ) (up dl : List ℕ)
    (h : max (up.length : ℤ) (dl.length : ℤ) - ((W : ℤ) - (x : ℤ)) < 0 ∨
      max (up.length : ℤ) (dl.length : ℤ) ≤
        max (up.length : ℤ) (dl.length : ℤ) - ((W : ℤ) - (x : ℤ))) :
    columnValues W up dl x = (0, 0) := by
  unfold columnValues
  dsimp only
  have hup : (up.length : ℤ) ≤ max (up.length : ℤ) (dl.length : ℤ) := le_max_left _ _
  have hdl : (dl.length : ℤ) ≤ max (up.length : ℤ) (dl.length : ℤ) := le_max_right _ _
  rw [if_neg (by omega), if_neg (by omega)]

/-- Both forms the upload series takes after an append (with and without
the capacity trim) shift the column data by exactly one position. -/
theorem columnValues_shift (up dl : List ℕ) (u d : ℕ) (W x : ℕ)
    (hlen : up.length = dl.length) (hW : W ≤ up.length) (hx : x + 1 < W) :
    columnValues W (up ++ [u]) (dl ++ [d]) x = columnValues W up dl (x + 1) ∧
    columnValues W (up.tail ++ [u]) (dl.tail ++ [d]) x = columnValues W up dl (x + 1) := by
  have hL1 : 1 ≤ up.length := by omega
  have hi : up.length - W + x + 1 < up.length := by omega
  have hrhs : columnValues W up dl (x + 1) =
      (up.getD (up.length - W + x + 1) 0, dl.getD (up.length - W + x + 1) 0) := by
    refine columnValues_in_range W (x + 1) up dl (up.length - W + x + 1) hlen.symm ?_ hi
    push_cast
    omega
  constructor
  · have hlhs : columnValues W (up ++ [u]) (dl ++ [d]) x =
        ((up ++ [u]).getD (up.length - W + x + 1) 0,
          (dl ++ [d]).getD (up.length - W + x + 1) 0) := by
      refine columnValues_in_range W x (up ++ [u]) (dl ++ [d])
        (up.length - W + x + 1) (by simp [hlen]) ?_ ?_
      · simp only [List.length_append, List.length_singleton]
        push_cast
        omega
      · simp only [List.length_append, List.length_singleton]
        omega
    rw [hlhs, hrhs]
    rw [List.getD_append _ _ _ _ (by omega), List.getD_append _ _ _ _ (by omega)]
  · have htlen : (up.tail ++ [u]).length = up.length := by
      simp only [List.length_append, List.length_tail, List.length_singleton]
      omega
    have htlen2 : (dl.tail ++ [d]).length = dl.length := by
      simp only [List.length_append, List.length_tail, List.length_singleton]
      omega
    have hlhs : columnValues W (up.tail ++ [u]) (dl.tail ++ [d]) x =
        ((up.tail ++ [u]).getD (up.length - W + x) 0,
          (dl.tail ++ [d]).getD (up.length - W + x) 0) := by
      refine columnValues_in_range W x (up.tail ++ [u]) (dl.tail ++ [d])
        (up.length - W + x) (by rw [htlen, htlen2, hlen]) ?_ ?_
      · rw [htlen]
        push_cast
        omega
      · rw [htlen]
        omega
    rw [hlhs, hrhs]
    have e1 : (up.tail ++ [u]).getD (up.length - W + x) 0 =
        up.getD (up.length - W + x + 1) 0 := by
      rw [List.getD_append _ _ _ _ (by simp only [List.length_tail]; omega), getD_tail]
    have e2 : (dl.tail ++ [d]).getD (up.length - W + x) 0 =
        dl.getD (up.length - W + x + 1) 0 := by
      rw [List.getD_append _ _ _ _ (by simp only [List.length_tail]; omega), getD_tail]
    rw [e1, e2]

/-- The rightmost column of a freshly appended pair of series reads
exactly the appended values. -/
theorem columnValues_last (X Y : List ℕ) (u d : ℕ) (W : ℕ) (hW1 : 1 ≤ W)
    (hlen : Y.length = X.length) :
    columnValues W (X ++ [u]) (Y ++ [d]) (W - 1) = (u, d) := by
  have hstep : columnValues W (X ++ [u]) (Y ++ [d]) (W - 1) =
      ((X ++ [u]).getD X.length 0, (Y ++ [d]).getD X.length 0) := by
    refine columnValues_in_range W (W - 1) (X ++ [u]) (Y ++ [d]) X.length
      (by simp [hlen]) ?_ (by simp)
    simp only [List.length_append, List.length_singleton]
    omega
  rw [hstep, getD_concat_self, hlen.symm, getD_concat_self]

/-- The claim asserts a bit-for-bit left shift of every column after any
append; rescaling breaks it. On the 20×8 linear chart filled with twenty
`(1024,0)` samples (rendered full-height at `maxValue = 1024`), appending
`(2048,0)` raises `maxValue` to 2048, so the retained samples re-render at
half height: new column 18 row 7 is blank where old column 19 row 7 was a
full cell. -/
theorem render_shift_counterexample :
    cellAt (AddDataPoint scrollChart20 2048 0) 18 7 ≠ cellAt scrollChart20 19 7 := by
  have h0 : cellAt scrollChart20 19 7 = ⟨255, .uploadStyled⟩ := by
    rw [cellAt_eq scrollChart20 19 7 (by decide)]
    have e1 : (updateMaxValue scrollChart20).maxValue = 1024 := by decide
    have e2 : columnValues scrollChart20.width scrollChart20.uploadData
        scrollChart20.downloadData 19 = (1024, 0) := by decide
    have e3 : scrollChart20.scalingMode = .ScalingLinear := by decide
    have e4 : scrollChart20.overlayMode = false := by decide
    have e5 : scrollChart20.height = 8 := by decide
    rw [e1, e2, e3, e4, e5]
    show columnCell .ScalingLinear false 1024 8 1024 0 7 = ⟨255, .uploadStyled⟩
    simp only [columnCell, Bool.false_eq_true, if_false]
    rw [scaledHeight_linear_eval 1024 1024 (8 / 2 * 4) 16 (by norm_num) (by norm_num)
      (by norm_num), scaledHeight_zero]
    decide
  have h1 : cellAt (AddDataPoint scrollChart20 2048 0) 18 7 = ⟨0, .space⟩ := by
    rw [cellAt_eq (AddDataPoint scrollChart20 2048 0) 18 7 (by decide)]
    have e1 : (updateMaxValue (AddDataPoint scrollChart20 2048 0)).maxValue = 2048 := by
      decide
    have e2 : columnValues (AddDataPoint scrollChart20 2048 0).width
        (AddDataPoint scrollChart20 2048 0).uploadData
        (AddDataPoint scrollChart20 2048 0).downloadData 18 = (1024, 0) := by decide
    have e3 : (AddDataPoint scrollChart20 2048 0).scalingMode = .ScalingLinear := by decide
    have e4 : (AddDataPoint scrollChart20 2048 0).overlayMode = false := by decide
    have e5 : (AddDataPoint scrollChart20 2048 0).height = 8 := by decide
    rw [e1, e2, e3, e4, e5]
    show columnCell .ScalingLinear false 2048 8 1024 0 7 = ⟨0, .space⟩
    simp only [columnCell, Bool.false_eq_true, if_false]
    rw [scaledHeight_linear_eval 1024 2048 (8 / 2 * 4) 8 (by norm_num) (by norm_num)
      (by norm_num), scaledHeight_zero]
    decide
  rw [h0, h1]
  decide

/-- C2 (amended): for the 1-minute mapping `dataIndex(x) = dataLen -
(chartWidth - x)`, a data index outside `[0, dataLen)` renders as an empty
column; after an append the rightmost column always shows the newly
appended sample; and appending one more sample shifts every column's
content left by exactly one position (bit-for-bit, ignoring color)
provided the append leaves the render-scale `maxValue` unchanged — a new
visible peak rescales the whole chart and breaks the pure shift. -/
theorem render_scroll_properties :
    (∀ (bc : BrailleChart) (u d x y : ℕ),
      bc.uploadData.length = bc.downloadData.length →
      bc.width ≤ bc.uploadData.length →
      x + 1 < bc.width →
      (updateMaxValue (AddDataPoint bc u d)).maxValue = (updateMaxValue bc).maxValue →
      cellAt (AddDataPoint bc u d) x y = cellAt bc (x + 1) y) ∧
    (∀ (bc : BrailleChart) (x y : ℕ),
      (max (bc.uploadData.length : ℤ) (bc.downloadData.length : ℤ) -
          ((bc.width : ℤ) - (x : ℤ)) < 0 ∨
        max (bc.uploadData.length : ℤ) (bc.downloadData.length : ℤ) ≤
          max (bc.uploadData.length : ℤ) (bc.downloadData.length : ℤ) -
            ((bc.width : ℤ) - (x : ℤ))) →
      cellAt bc x y = ⟨0, .space⟩) ∧
    (∀ (bc : BrailleChart) (u d y : ℕ),
      bc.uploadData.length = bc.downloadData.length →
      1 ≤ bc.maxPoints →
      1 ≤ bc.width →
      cellAt (AddDataPoint bc u d) (bc.width - 1) y =
        columnCell bc.scalingMode bc.overlayMode
          (updateMaxValue (AddDataPoint bc u d)).maxValue bc.height u d y) := by
  refine ⟨?_, ?_, ?_⟩
  · intro bc u d x y hlen hW hx hmax
    obtain ⟨hno, hyes, _, hwE, hhE, hovE, hscE, _⟩ := AddDataPoint_spec bc u d hlen
    have hne_old : ¬(bc.uploadData.length = 0 ∧ bc.downloadData.length = 0) := by omega
    by_cases hc : (bc.uploadData.length + 1 : ℤ) > bc.maxPoints
    · obtain ⟨e1, e2⟩ := hyes hc
      have hupne : bc.uploadData ≠ [] := List.length_pos.mp (by omega)
      have hdlne : bc.downloadData ≠ [] := List.length_pos.mp (by omega)
      rw [tail_append_singleton _ hupne] at e1
      rw [tail_append_singleton _ hdlne] at e2
      have hne_new : ¬((AddDataPoint bc u d).uploadData.length = 0 ∧
          (AddDataPoint bc u d).downloadData.length = 0) := by
        intro hcontra
        have h1 := hcontra.1
        rw [e1] at h1
        simp at h1
      rw [cellAt_eq _ _ _ hne_new, cellAt_eq _ _ _ hne_old]
      rw [hscE, hovE, hhE, hwE, hmax, e1, e2,
        (columnValues_shift bc.uploadData bc.downloadData u d bc.width x hlen hW hx).2]
    · obtain ⟨e1, e2⟩ := hno hc
      have hne_new : ¬((AddDataPoint bc u d).uploadData.length = 0 ∧
          (AddDataPoint bc u d).downloadData.length = 0) := by
        intro hcontra
        have h1 := hcontra.1
        rw [e1] at h1
        simp at h1
      rw [cellAt_eq _ _ _ hne_new, cellAt_eq _ _ _ hne_old]
      rw [hscE, hovE, hhE, hwE, hmax, e1, e2,
        (columnValues_shift bc.uploadData bc.downloadData u d bc.width x hlen hW hx).1]
  · intro bc x y h
    by_cases hne : bc.uploadData.length = 0 ∧ bc.downloadData.length = 0
    · unfold cellAt
      rw [if_pos hne]
    · rw [cellAt_eq _ _ _ hne, columnValues_oob _ _ _ _ h]
      exact columnCell_zero _ _ _ _ _
  · intro bc u d y hlen hmp hw1
    obtain ⟨hno, hyes, _, hwE, hhE, hovE, hscE, _⟩ := AddDataPoint_spec bc u d hlen
    by_cases hc : (bc.uploadData.length + 1 : ℤ) > bc.maxPoints
    · have hL1 : 1 ≤ bc.uploadData.length := by omega
      obtain ⟨e1, e2⟩ := hyes hc
      have hupne : bc.uploadData ≠ [] := List.length_pos.mp (by omega)
      have hdlne : bc.downloadData ≠ [] := List.length_pos.mp (by omega)
      rw [tail_append_singleton _ hupne] at e1
      rw [tail_append_singleton _ hdlne] at e2
      have hne_new : ¬((AddDataPoint bc u d).uploadData.length = 0 ∧
          (AddDataPoint bc u d).downloadData.length = 0) := by
        intro hcontra
        have h1 := hcontra.1
        rw [e1] at h1
        simp at h1
      rw [cellAt_eq _ _ _ hne_new, hscE, hovE, hhE, hwE, e1, e2,
        columnValues_last _ _ u d bc.width hw1
          (by simp only [List.length_tail]; omega)]
    · obtain ⟨e1, e2⟩ := hno hc
      have hne_new : ¬((AddDataPoint bc u d).uploadData.length = 0 ∧
          (AddDataPoint bc u d).downloadData.length = 0) := by
        intro hcontra
        have h1 := hcontra.1
        rw [e1] at h1
        simp at h1
      rw [cellAt_eq _ _ _ hne_new, hscE, hovE, hhE, hwE, e1, e2,
        columnValues_last _ _ u d bc.width hw1 hlen.symm]

/-- Witness: C2's shift at the concrete 20-sample chart when the appended
sample keeps the visible maximum unchanged, plus the empty-column and
rightmost-column conjuncts at concrete inputs. -/
theorem render_scroll_properties_witness :
    cellAt (AddDataPoint scrollChart20 1024 0) 5 3 = cellAt scrollChart20 6 3 ∧
    cellAt (AddDataPoint scrollChartBase 7 9) 0 2 = ⟨0, .space⟩ ∧
    cellAt (AddDataPoint scrollChart20 777 5) (scrollChart20.width - 1) 2 =
      columnCell scrollChart20.scalingMode scrollChart20.overlayMode
        (updateMaxValue (AddDataPoint scrollChart20 777 5)).maxValue scrollChart20.height
        777 5 2 :=
  ⟨render_scroll_properties.1 scrollChart20 1024 0 5 3 (by decide) (by decide)
      (by decide) (by decide),
   render_scroll_properties.2.1 (AddDataPoint scrollChartBase 7 9) 0 2 (by decide),
   render_scroll_properties.2.2 scrollChart20 777 5 2 (by decide) (by decide) (by decide)⟩

end Peaks
